import Mathlib

/-!
Verification model of `src/log/async_log.rs` (asynchronous log appenders).

Log texts are modelled as lists of Unicode scalar values (`List Nat`), byte
buffers as lists of byte values (`List Nat`).  The worker thread, the regex
rewrite it applies, the per-destination `SyncWrite` implementations, the
`append`/teardown protocol over the mpsc channel, and the configuration
deserializers are each translated below from the source file.
-/

namespace AsyncLog

/-- Unicode scalar values of a string literal; used to state concrete inputs. -/
def str (s : String) : List Nat := s.toList.map Char.toNat

/-- A valid Unicode scalar value (what a Rust `char` may hold). -/
def ValidScalar (c : Nat) : Prop := c < 0xD800 ∨ (0xE000 ≤ c ∧ c < 0x110000)

instance (c : Nat) : Decidable (ValidScalar c) := by
  unfold ValidScalar; infer_instance

/-! ### UTF-8 encoding and decoding

`String::from_utf8` (strict UTF-8 validation: overlong forms, surrogates and
values above U+10FFFF are rejected) and `String::into_bytes` of the Rust
standard library, as used by the worker closure. -/

/-- UTF-8 encoding of one scalar value. -/
def encodeChar (c : Nat) : List Nat :=
  if c < 0x80 then [c]
  else if c < 0x800 then [0xC0 + c / 64, 0x80 + c % 64]
  else if c < 0x10000 then [0xE0 + c / 4096, 0x80 + (c / 64) % 64, 0x80 + c % 64]
  else [0xF0 + c / 262144, 0x80 + (c / 4096) % 64, 0x80 + (c / 64) % 64, 0x80 + c % 64]

/-- UTF-8 encoding of a text (`String::into_bytes`). -/
def utf8Encode : List Nat → List Nat
  | [] => []
  | c :: cs => encodeChar c ++ utf8Encode cs

/-- Strict UTF-8 decoding (`String::from_utf8`): `none` on any invalid byte
sequence (continuation-byte errors, overlong forms, surrogates, values above
U+10FFFF), otherwise the list of decoded scalar values. -/
def utf8Decode : List Nat → Option (List Nat)
  | [] => some []
  | b1 :: rest =>
    if b1 < 0x80 then (utf8Decode rest).map (b1 :: ·)
    else if b1 < 0xC2 then none
    else if 0xF5 ≤ b1 then none
    else
      match rest with
      | [] => none
      | b2 :: rest2 =>
        if b1 < 0xE0 then
          if 0x80 ≤ b2 ∧ b2 < 0xC0 then
            (utf8Decode rest2).map (((b1 - 0xC0) * 64 + (b2 - 0x80)) :: ·)
          else none
        else
          match rest2 with
          | [] => none
          | b3 :: rest3 =>
            if b1 < 0xF0 then
              if (0x80 ≤ b2 ∧ b2 < 0xC0) ∧ (0x80 ≤ b3 ∧ b3 < 0xC0) ∧
                  (b1 = 0xE0 → 0xA0 ≤ b2) ∧ (b1 = 0xED → b2 < 0xA0) then
                (utf8Decode rest3).map
                  (((b1 - 0xE0) * 4096 + (b2 - 0x80) * 64 + (b3 - 0x80)) :: ·)
              else none
            else
              match rest3 with
              | [] => none
              | b4 :: rest4 =>
                if (0x80 ≤ b2 ∧ b2 < 0xC0) ∧ (0x80 ≤ b3 ∧ b3 < 0xC0) ∧
                    (0x80 ≤ b4 ∧ b4 < 0xC0) ∧
                    (b1 = 0xF0 → 0x90 ≤ b2) ∧ (b1 = 0xF4 → b2 < 0x90) then
                  (utf8Decode rest4).map
                    (((b1 - 0xF0) * 262144 + (b2 - 0x80) * 4096 + (b3 - 0x80) * 64 +
                      (b4 - 0x80)) :: ·)
                else none

theorem utf8Decode_encodeChar (c : Nat) (h : ValidScalar c) (bs : List Nat) :
    utf8Decode (encodeChar c ++ bs) = (utf8Decode bs).map (c :: ·) := by
  rcases Nat.lt_or_ge c 0x80 with h1 | h1
  · have he : encodeChar c ++ bs = c :: bs := by
      unfold encodeChar; rw [if_pos h1]; rfl
    rw [he]
    rw [utf8Decode.eq_def]; dsimp only; rw [if_pos h1]
  · rcases Nat.lt_or_ge c 0x800 with h2 | h2
    · have he : encodeChar c ++ bs = (0xC0 + c / 64) :: (0x80 + c % 64) :: bs := by
        unfold encodeChar
        rw [if_neg (by omega), if_pos h2]; rfl
      rw [he]
      rw [utf8Decode.eq_def]; dsimp only
      rw [if_neg (by omega), if_neg (by omega), if_neg (by omega), if_pos (by omega),
        if_pos (by omega : 0x80 ≤ 0x80 + c % 64 ∧ 0x80 + c % 64 < 0xC0)]
      have hv : (0xC0 + c / 64 - 0xC0) * 64 + (0x80 + c % 64 - 0x80) = c := by omega
      rw [hv]
    · rcases Nat.lt_or_ge c 0x10000 with h3 | h3
      · have he : encodeChar c ++ bs =
            (0xE0 + c / 4096) :: (0x80 + (c / 64) % 64) :: (0x80 + c % 64) :: bs := by
          unfold encodeChar
          rw [if_neg (by omega), if_neg (by omega), if_pos h3]; rfl
        rw [he]
        rw [utf8Decode.eq_def]; dsimp only
        rw [if_neg (by omega), if_neg (by omega), if_neg (by omega), if_neg (by omega),
          if_pos (by omega)]
        have hcond : (0x80 ≤ 0x80 + (c / 64) % 64 ∧ 0x80 + (c / 64) % 64 < 0xC0) ∧
            (0x80 ≤ 0x80 + c % 64 ∧ 0x80 + c % 64 < 0xC0) ∧
            (0xE0 + c / 4096 = 0xE0 → 0xA0 ≤ 0x80 + (c / 64) % 64) ∧
            (0xE0 + c / 4096 = 0xED → 0x80 + (c / 64) % 64 < 0xA0) := by
          refine ⟨by omega, by omega, ?_, ?_⟩
          · intro h0; unfold ValidScalar at h; omega
          · intro h0; unfold ValidScalar at h; omega
        rw [if_pos hcond]
        have hv : (0xE0 + c / 4096 - 0xE0) * 4096 + (0x80 + (c / 64) % 64 - 0x80) * 64 +
            (0x80 + c % 64 - 0x80) = c := by omega
        rw [hv]
      · have hc : c < 0x110000 := by unfold ValidScalar at h; omega
        have he : encodeChar c ++ bs =
            (0xF0 + c / 262144) :: (0x80 + (c / 4096) % 64) ::
              (0x80 + (c / 64) % 64) :: (0x80 + c % 64) :: bs := by
          unfold encodeChar
          rw [if_neg (by omega), if_neg (by omega), if_neg (by omega)]; rfl
        rw [he]
        rw [utf8Decode.eq_def]; dsimp only
        rw [if_neg (by omega), if_neg (by omega), if_neg (by omega), if_neg (by omega),
          if_neg (by omega)]
        have hcond : (0x80 ≤ 0x80 + (c / 4096) % 64 ∧ 0x80 + (c / 4096) % 64 < 0xC0) ∧
            (0x80 ≤ 0x80 + (c / 64) % 64 ∧ 0x80 + (c / 64) % 64 < 0xC0) ∧
            (0x80 ≤ 0x80 + c % 64 ∧ 0x80 + c % 64 < 0xC0) ∧
            (0xF0 + c / 262144 = 0xF0 → 0x90 ≤ 0x80 + (c / 4096) % 64) ∧
            (0xF0 + c / 262144 = 0xF4 → 0x80 + (c / 4096) % 64 < 0x90) := by
          refine ⟨by omega, by omega, by omega, by omega, by omega⟩
        rw [if_pos hcond]
        have hv : (0xF0 + c / 262144 - 0xF0) * 262144 + (0x80 + (c / 4096) % 64 - 0x80) * 4096 +
            (0x80 + (c / 64) % 64 - 0x80) * 64 + (0x80 + c % 64 - 0x80) = c := by omega
        rw [hv]

/-- Decoding inverts encoding on any text of valid scalar values. -/
theorem utf8_roundtrip (s : List Nat) (h : ∀ c ∈ s, ValidScalar c) :
    utf8Decode (utf8Encode s) = some s := by
  induction s with
  | nil => rfl
  | cons c cs ih =>
    have he : utf8Encode (c :: cs) = encodeChar c ++ utf8Encode cs := rfl
    rw [he, utf8Decode_encodeChar c (h c (List.mem_cons_self c cs)),
      ih (fun d hd => h d (List.mem_cons_of_mem _ hd))]
    rfl

/-! ### The worker's regex

`Regex::new(r"#FS#?.*[/\\#]([^#]+)#FE#")` together with `re.captures` and
`re.replace` (first match only) from the `regex` 0.1 crate, which implements
leftmost-first (Perl-style, greedy-preferring) match semantics.  A `&str`
replacer is `$`-expanded against the match's captures (`Captures::expand`),
modelled further below.  Scalar values: `'#' = 35`, `'F' = 70`, `'S' = 83`,
`'E' = 69`, `'/' = 47`, `'\\' = 92`, `'\n' = 10`, `'$' = 36`, `'{' = 123`,
`'}' = 125`. -/

/-- The character class `[/\\#]`. -/
def isSep (c : Nat) : Bool := c == 47 || c == 92 || c == 35

/-- Match `([^#]+)#FE#` at the head of `s`, returning the matched span, the
capture and the remainder after the match.  The group is greedy, but shorter
choices are impossible anyway: it is forced to be the maximal run of
non-`'#'` scalars, since the literal `#FE#` begins with `'#'`. -/
def matchTail (s : List Nat) : Option (List Nat × List Nat × List Nat) :=
  let g := s.takeWhile (fun c => c != 35)
  let r := s.dropWhile (fun c => c != 35)
  if g = [] then none
  else
    match r with
    | c1 :: c2 :: c3 :: c4 :: rest =>
      if c1 = 35 ∧ c2 = 70 ∧ c3 = 69 ∧ c4 = 35 then some (g ++ [35, 70, 69, 35], g, rest)
      else none
    | _ => none

/-- Match `.*[/\\#]([^#]+)#FE#` at the head of `s`, returning matched span,
capture and remainder.  The greedy `.*` prefers the longest prefix — i.e. the
rightmost separator position whose tail matches — and `.` does not match
`'\n'`. -/
def dotStarMatch : List Nat → Option (List Nat × List Nat × List Nat)
  | [] => none
  | c :: cs =>
    match (if c ≠ 10 then dotStarMatch cs else none) with
    | some (sp, g, rest) => some (c :: sp, g, rest)
    | none =>
      if isSep c then
        match matchTail cs with
        | some (sp, g, rest) => some (c :: sp, g, rest)
        | none => none
      else none

/-- Match the whole pattern `#FS#?.*[/\\#]([^#]+)#FE#` at the head of `s`:
literal `#FS`, then an optional `#` (greedy, with backtracking), then the
rest of the pattern.  Returns matched span (capture group 0), capture group 1
and the remainder. -/
def matchAt (s : List Nat) : Option (List Nat × List Nat × List Nat) :=
  match s with
  | c1 :: c2 :: c3 :: rest =>
    if c1 = 35 ∧ c2 = 70 ∧ c3 = 83 then
      match rest with
      | c4 :: rest2 =>
        if c4 = 35 then
          match dotStarMatch rest2 with
          | some (sp, g, r) => some (35 :: 70 :: 83 :: 35 :: sp, g, r)
          | none =>
            match dotStarMatch rest with
            | some (sp, g, r) => some (35 :: 70 :: 83 :: sp, g, r)
            | none => none
        else
          match dotStarMatch rest with
          | some (sp, g, r) => some (35 :: 70 :: 83 :: sp, g, r)
          | none => none
      | [] => none
    else none
  | _ => none

/-- Leftmost match of the pattern (`re.captures` scans start positions left to
right): returns the prefix before the match, the whole matched span (group 0),
capture group 1, and the suffix after the match. -/
def findMatch : List Nat → Option (List Nat × List Nat × List Nat × List Nat)
  | [] => none
  | c :: cs =>
    match matchAt (c :: cs) with
    | some (sp, g, rest) => some ([], sp, g, rest)
    | none =>
      match findMatch cs with
      | some (pre, sp, g, rest) => some (c :: pre, sp, g, rest)
      | none => none

/-! ### `Captures::expand` of regex 0.1

`re.replace(text, rep)` with a `&str` replacer substitutes
`caps.expand(rep)` for the match.  `expand` first replaces every reference
`(^|[^$]|\b)\$(\w+|\{\w+\})` — a `$`-name whose left context is the text
start, an unconsumed non-`$` character, or a word boundary — by the
preceding context character (when one was consumed) followed by the group's
text: a numeric name selects the group by index (`$0` is the whole match),
any other name is looked up among named capture groups, and the path regex
has none, so non-numeric and all braced names (whose token keeps its braces
when parsed as a number and is only brace-trimmed for the named lookup)
expand to the empty string.  A second pass then collapses every `$$` to
`$`. -/

/-- ASCII word characters (digits, letters, underscore).  The crate's `\w`
is Unicode-aware; the difference is visible only in replacement texts where
`$` is immediately followed by a non-ASCII word character, which no theorem
below exercises. -/
def isWordChar (c : Nat) : Bool :=
  (48 ≤ c && c ≤ 57) || (65 ≤ c && c ≤ 90) || (97 ≤ c && c ≤ 122) || c == 95

/-- Numeric value of a digit run (`str::parse::<usize>`; leading zeros
allowed). -/
def digitsToNat (ds : List Nat) : Nat := ds.foldl (fun n d => n * 10 + (d - 48)) 0

/-- Whether every scalar of the token is an ASCII digit. -/
def allDigits (ds : List Nat) : Bool := ds.all (fun d => 48 ≤ d && d ≤ 57)

/-- `Captures::at(i)` for the path regex: group 0 is the whole match, group 1
the leaf; any other index is out of range and contributes the empty string. -/
def groupValue (m0 g1 : List Nat) (i : Nat) : List Nat :=
  if i = 0 then m0 else if i = 1 then g1 else []

/-- Resolution of an unbraced `$name` token: a numeric name selects the group
by index (a value too large for `usize` fails to parse, falls back to the
named lookup and equally yields the empty string, as `groupValue` does for
any index above 1); a non-numeric name is looked up among named groups — the
path regex has none — and yields the empty string. -/
def refValue (m0 g1 : List Nat) (acc : List Nat) : List Nat :=
  if allDigits acc then groupValue m0 g1 (digitsToNat acc) else []

/-- Left context of a scan position, for the `(^|[^$]|\b)` alternatives of
the reference pattern: the start of the text, after a plain character that no
reference consumed, or right after the final character of a replaced
reference. -/
inductive ExpCtx where
  | atStart
  | afterPlain (c : Nat)
  | afterMatch (c : Nat)

/-- Whether a `$` in this left context starts a reference: `^` at the start;
`[^$]`, an unconsumed preceding character other than `$`; or `\b`, a word
boundary, i.e. a preceding word character (`$` itself is not a word
character, so a consumed `}` blocks the boundary while a consumed name
character provides it). -/
def dollarCtxOk : ExpCtx → Bool
  | ExpCtx.atStart => true
  | ExpCtx.afterPlain c => c != 36
  | ExpCtx.afterMatch c => isWordChar c

/-- State of the single left-to-right pass that performs the non-overlapping
`replace_all` of the reference pattern: scanning plainly, just consumed an
expandable `$`, reading an unbraced `\w+` name, just read `${`, or reading a
braced name. -/
inductive ExpState where
  | plain (ctx : ExpCtx)
  | sawDollar
  | name (acc : List Nat)
  | brace0
  | braceName (acc : List Nat)

/-- The first pass of `Captures::expand`: substitute every reference
`(^|[^$]|\b)\$(\w+|\{\w+\})`, scanning leftmost with searches resuming after
each match.  A consumed `[^$]` context character is emitted verbatim, so only
whether a `$` is expandable depends on the context; an incomplete reference
(`$` before a non-name character, or `${` never closed) is emitted
verbatim. -/
def expandStep (m0 g1 : List Nat) : ExpState → List Nat → List Nat
  | ExpState.plain _, [] => []
  | ExpState.plain ctx, c :: cs =>
    if c = 36 ∧ dollarCtxOk ctx = true then expandStep m0 g1 ExpState.sawDollar cs
    else c :: expandStep m0 g1 (ExpState.plain (ExpCtx.afterPlain c)) cs
  | ExpState.sawDollar, [] => [36]
  | ExpState.sawDollar, c :: cs =>
    if isWordChar c = true then expandStep m0 g1 (ExpState.name [c]) cs
    else if c = 123 then expandStep m0 g1 ExpState.brace0 cs
    else 36 :: c :: expandStep m0 g1 (ExpState.plain (ExpCtx.afterPlain c)) cs
  | ExpState.name acc, [] => refValue m0 g1 acc
  | ExpState.name acc, c :: cs =>
    if isWordChar c = true then expandStep m0 g1 (ExpState.name (acc ++ [c])) cs
    else if c = 36 then refValue m0 g1 acc ++ expandStep m0 g1 ExpState.sawDollar cs
    else refValue m0 g1 acc ++ c :: expandStep m0 g1 (ExpState.plain (ExpCtx.afterPlain c)) cs
  | ExpState.brace0, [] => [36, 123]
  | ExpState.brace0, c :: cs =>
    if isWordChar c = true then expandStep m0 g1 (ExpState.braceName [c]) cs
    else if c = 36 then 36 :: 123 :: expandStep m0 g1 ExpState.sawDollar cs
    else 36 :: 123 :: c :: expandStep m0 g1 (ExpState.plain (ExpCtx.afterPlain c)) cs
  | ExpState.braceName acc, [] => 36 :: 123 :: acc
  | ExpState.braceName acc, c :: cs =>
    if isWordChar c = true then expandStep m0 g1 (ExpState.braceName (acc ++ [c])) cs
    else if c = 125 then expandStep m0 g1 (ExpState.plain (ExpCtx.afterMatch 125)) cs
    else if c = 36 then 36 :: 123 :: (acc ++ expandStep m0 g1 ExpState.sawDollar cs)
    else 36 :: 123 :: (acc ++ c :: expandStep m0 g1 (ExpState.plain (ExpCtx.afterPlain c)) cs)

/-- The second pass of `Captures::expand`: `replace_all` of `\$\$` by `$`,
leftmost and non-overlapping. -/
def collapseDollars : List Nat → List Nat
  | [] => []
  | [c] => [c]
  | c :: c2 :: rest =>
    if c = 36 ∧ c2 = 36 then 36 :: collapseDollars rest
    else c :: collapseDollars (c2 :: rest)

/-- `Captures::expand(text)` for the path regex's captures (group 0 = whole
match `m0`, group 1 = leaf `g1`): the reference pass followed by the `$$`
pass. -/
def expand (m0 g1 text : List Nat) : List Nat :=
  collapseDollars (expandStep m0 g1 (ExpState.plain ExpCtx.atStart) text)

/-- The worker's message rewrite: `re.captures(&str_msg_cloned)` followed by
`str_msg = re.replace(&str_msg[..], file_name)` — the first match, if any, is
replaced by the `$`-expansion of the leaf-name replacement string against the
match's captures; otherwise the text is unchanged. -/
def rewrite (s : List Nat) : List Nat :=
  match findMatch s with
  | some (pre, m0, g, rest) => pre ++ expand m0 g g ++ rest
  | none => s

example : rewrite (str "xy#FS#/a/b/c.log#FE#zw") = str "xyc.logzw" := by decide

example : rewrite (str "x#FS#/a/b.log#FE#y#FS#/c/d.log#FE#z") = str "xd.logz" := by decide

example : rewrite (str "no markers here") = str "no markers here" := by decide

/-! ### Events and the worker loop -/

/-- `enum AsyncEvent { Log(Vec<u8>), Terminate }`. -/
inductive AsyncEvent where
  | Log (msg : List Nat)
  | Terminate
deriving DecidableEq

/-- Body of one `AsyncEvent::Log` arm of the worker loop: decode the payload
(`String::from_utf8`; on failure the event is silently discarded), apply the
rewrite, re-encode (`String::into_bytes`); `some` is the buffer handed to
`writer.sync_write`, `none` means nothing is written. -/
def processEvent (msg : List Nat) : Option (List Nat) :=
  match utf8Decode msg with
  | some s => some (utf8Encode (rewrite s))
  | none => none

/-- The per-event write of the worker loop (`Log` as above, `Terminate`
writes nothing). -/
def eventOut : AsyncEvent → Option (List Nat)
  | AsyncEvent.Log msg => processEvent msg
  | AsyncEvent.Terminate => none

/-- The worker loop `for event in rx.iter() { ... }`: consumes queued events
in FIFO order; returns the buffers handed to `sync_write` in order, and the
events left unconsumed in the queue when the loop `break`s on `Terminate`. -/
def workerRun : List AsyncEvent → List (List Nat) × List AsyncEvent
  | [] => ([], [])
  | AsyncEvent.Log msg :: rest =>
    let r := workerRun rest
    match processEvent msg with
    | some out => (out :: r.1, r.2)
    | none => r
  | AsyncEvent.Terminate :: rest => ([], rest)

/-- `AsyncAppender::append` encodes the record and enqueues the bytes as a
`Log` event; the encoder (spec §6) is the pure collaborator
`encode(record) -> bytes`, here UTF-8 encoding of the record text. -/
def appendEvent (record : List Nat) : AsyncEvent := AsyncEvent.Log (utf8Encode record)

/-! ### Sink abstraction (`trait SyncWrite` implementations) -/

/-- `pub const MSG_TERMINATOR: [u8; 3] = [254, 253, 255];` -/
def MSG_TERMINATOR : List Nat := [254, 253, 255]

/-- `impl SyncWrite for TcpStream`: `write_all(buf)` then
`write_all(&MSG_TERMINATOR)`; the state is the byte stream on the wire. -/
def tcpSyncWrite (wire : List Nat) (buf : List Nat) : List Nat :=
  (wire ++ buf) ++ MSG_TERMINATOR

/-- `impl SyncWrite for WebSocket`: `write_all(buf)` only — one framed
message per write, no terminator. -/
def wsSyncWrite (frames : List (List Nat)) (buf : List Nat) : List (List Nat) :=
  frames ++ [buf]

/-- An open file handle: contents, current write position, and whether the
handle was opened with the `append` flag (every write then goes to the end). -/
structure OpenFile where
  content : List Nat
  pos : Nat
  appendFlag : Bool
deriving DecidableEq

/-- `OpenOptions::new().write(true).append(append).create(true).open(path)`
(from `AsyncFileAppenderBuilder::build`): creates the file if absent, keeps
existing contents — no `truncate` flag is set — and positions writes at the
start (or at the end in append mode). -/
def openOptionsOpen (append : Bool) (prior : Option (List Nat)) : OpenFile :=
  { content := prior.getD [], pos := 0, appendFlag := append }

/-- `impl SyncWrite for File`: `write_all(buf)` then `flush()`.  A positioned
write overwrites in place and extends the file as needed; an append-mode
write goes to the end. -/
def fileSyncWrite (f : OpenFile) (buf : List Nat) : OpenFile :=
  if f.appendFlag then
    { f with content := f.content ++ buf, pos := f.content.length + buf.length }
  else
    { f with
      content := f.content.take f.pos ++ buf ++ f.content.drop (f.pos + buf.length)
      pos := f.pos + buf.length }

/-! ### The append path over the mpsc channel -/

/-- The visible state of `mpsc::channel`'s sending half: whether the
receiving half (owned by the worker) is still alive. -/
structure ChannelState where
  receiverAlive : Bool
deriving DecidableEq

/-- `std::sync::mpsc::SendError`: sending fails iff the receiver was dropped. -/
inductive SendError where
  | disconnected
deriving DecidableEq

/-- `Sender::send`: `Ok(())` while the receiver is alive, an error once the
worker has terminated and dropped the receiver. -/
def mpscSend (st : ChannelState) (_e : AsyncEvent) : Except SendError Unit :=
  if st.receiverAlive then Except.ok () else Except.error SendError.disconnected

/-- `Append for AsyncAppender::append`: encode the record (the pure encoder
collaborator of spec §6) and `send` the `Log` event; the `try!` propagates a
send error to the caller as a returned error. -/
def appendImpl (st : ChannelState) (record : List Nat) : Except SendError Unit :=
  mpscSend st (appendEvent record)

/-! ### Configuration deserialization (`Deserialize` impls) -/

/-- `serde_value::Value`, restricted to the shapes the creators inspect:
strings, booleans, maps, and anything else. -/
inductive Value where
  | string (s : String)
  | bool (b : Bool)
  | map (entries : List (Value × Value))
  | other

/-- Whether a map key equals `Value::String(k)`. -/
def isKey (v : Value) (k : String) : Bool :=
  match v with
  | Value.string s => s == k
  | _ => false

/-- `BTreeMap::remove(&Value::String(k))`: the removed value, if present, and
the remaining map. -/
def removeKey : List (Value × Value) → String → Option Value × List (Value × Value)
  | [], _ => (none, [])
  | (kv, v) :: rest, k =>
    if isKey kv k then (some v, rest)
    else
      let r := removeKey rest k
      (r.1, (kv, v) :: r.2)

/-- The encoder produced by `parse_pattern`: an explicit pattern string, the
default `PatternEncoder`, or the JSON pattern built by `make_json_pattern`
with a random unique id. -/
inductive EncoderConfig where
  | custom (p : String)
  | defaultPattern
  | jsonPattern (uid : Nat)
deriving DecidableEq

/-- `fn parse_pattern`: removes the `pattern` key; a string yields a custom
encoder, a non-string is a configuration error, and an absent key yields the
default (JSON with a random id for the web-socket creator).  Returns the
encoder and the remaining map. -/
def parse_pattern (m : List (Value × Value)) (is_websocket : Bool) (uid : Nat) :
    Except String (EncoderConfig × List (Value × Value)) :=
  let r := removeKey m "pattern"
  match r.1 with
  | some (Value.string p) => Except.ok (EncoderConfig.custom p, r.2)
  | some _ => Except.error "`pattern` must be a string"
  | none =>
    if is_websocket then Except.ok (EncoderConfig.jsonPattern uid, r.2)
    else Except.ok (EncoderConfig.defaultPattern, r.2)

/-- The builder arguments assembled by `AsyncFileAppenderCreator`. -/
structure FileAppenderConfig where
  path : String
  append : Bool
  encoder : EncoderConfig
deriving DecidableEq

/-- `AsyncFileAppenderCreator::deserialize`, up to the call of
`AsyncFileAppender::builder(...).build()`: field extraction in source order
(`path`, then `append`, then the pattern). -/
def fileDeserialize (config : Value) : Except String FileAppenderConfig :=
  match config with
  | Value.map m =>
    match removeKey m "path" with
    | (some (Value.string path), m1) =>
      (match removeKey m1 "append" with
       | (some (Value.bool append), m2) =>
         match parse_pattern m2 false 0 with
         | Except.ok (enc, _) => Except.ok { path := path, append := append, encoder := enc }
         | Except.error e => Except.error e
       | (some _, _) => Except.error "`append` must be a bool"
       | (none, m2) =>
         match parse_pattern m2 false 0 with
         | Except.ok (enc, _) => Except.ok { path := path, append := true, encoder := enc }
         | Except.error e => Except.error e)
    | (some _, _) => Except.error "`path` must be a string"
    | (none, _) => Except.error "`path` is required"
  | _ => Except.error "config must be a map"

/-- The builder arguments assembled by `AsyncServerAppenderCreator`; `α` is
the parsed socket-address type. -/
structure ServerAppenderConfig (α : Type) where
  addr : α
  no_delay : Bool
  encoder : EncoderConfig
deriving DecidableEq

/-- `AsyncServerAppenderCreator::deserialize`, up to the call of
`AsyncServerAppender::builder(...).build()`: field extraction in source order
(`server_addr` — parsed with `SocketAddr::from_str`, an external collaborator
passed in as `parseAddr` — then `no_delay`, then the pattern). -/
def serverDeserialize {α : Type} (parseAddr : String → Option α) (config : Value) :
    Except String (ServerAppenderConfig α) :=
  match config with
  | Value.map m =>
    match removeKey m "server_addr" with
    | (some (Value.string addr), m1) =>
      (match parseAddr addr with
       | some a =>
         (match removeKey m1 "no_delay" with
          | (some (Value.bool nd), m2) =>
            match parse_pattern m2 false 0 with
            | Except.ok (enc, _) => Except.ok { addr := a, no_delay := nd, encoder := enc }
            | Except.error e => Except.error e
          | (some _, _) => Except.error "`no_delay` must be a boolean"
          | (none, m2) =>
            match parse_pattern m2 false 0 with
            | Except.ok (enc, _) => Except.ok { addr := a, no_delay := true, encoder := enc }
            | Except.error e => Except.error e)
       | none => Except.error "invalid socket address")
    | (some _, _) => Except.error "`server_addr` must be a string"
    | (none, _) => Except.error "`server_addr` is required"
  | _ => Except.error "config must be a map"

/-- The builder arguments assembled by `AsyncWebSockAppenderCreator`. -/
structure WebSockAppenderConfig where
  url : String
  encoder : EncoderConfig
deriving DecidableEq

/-- `AsyncWebSockAppenderCreator::deserialize`, up to the call of
`AsyncWebSockAppender::builder(...).build()`: `server_url`, then the pattern
(web-socket variant, with a random id `uid` for the default JSON pattern). -/
def webSockDeserialize (uid : Nat) (config : Value) : Except String WebSockAppenderConfig :=
  match config with
  | Value.map m =>
    match removeKey m "server_url" with
    | (some (Value.string url), m1) =>
      (match parse_pattern m1 true uid with
       | Except.ok (enc, _) => Except.ok { url := url, encoder := enc }
       | Except.error e => Except.error e)
    | (some _, _) => Except.error "`server_url` must be a string"
    | (none, _) => Except.error "`server_url` is required"
  | _ => Except.error "config must be a map"

/-- The externally visible side effects of a creator call, in order: each
`build()` opens/connects the sink and then spawns the worker task
(`AsyncAppender::new`). -/
inductive BuildAction where
  | openSink
  | startWorker
deriving DecidableEq

/-- Side effects of `AsyncFileAppenderCreator::deserialize`: `build()` — which
opens the file and spawns the worker — is reached only after every field of
the configuration has parsed successfully. -/
def fileBuildTrace (config : Value) : List BuildAction :=
  match fileDeserialize config with
  | Except.ok _ => [BuildAction.openSink, BuildAction.startWorker]
  | Except.error _ => []

/-- Side effects of `AsyncServerAppenderCreator::deserialize`. -/
def serverBuildTrace {α : Type} (parseAddr : String → Option α) (config : Value) :
    List BuildAction :=
  match serverDeserialize parseAddr config with
  | Except.ok _ => [BuildAction.openSink, BuildAction.startWorker]
  | Except.error _ => []

/-- Side effects of `AsyncWebSockAppenderCreator::deserialize`. -/
def webSockBuildTrace (uid : Nat) (config : Value) : List BuildAction :=
  match webSockDeserialize uid config with
  | Except.ok _ => [BuildAction.openSink, BuildAction.startWorker]
  | Except.error _ => []

/-! ### Helper lemmas -/

/-- A successful `matchAt` can only happen on a text starting with `#FS`. -/
theorem matchAt_shape (s : List Nat) (r : List Nat × List Nat × List Nat)
    (h : matchAt s = some r) :
    ∃ t, s = 35 :: 70 :: 83 :: t := by
  rcases s with _ | ⟨c1, _ | ⟨c2, _ | ⟨c3, t⟩⟩⟩
  · exact absurd h (by simp [matchAt])
  · exact absurd h (by simp [matchAt])
  · exact absurd h (by simp [matchAt])
  · by_cases hc : c1 = 35 ∧ c2 = 70 ∧ c3 = 83
    · exact ⟨t, by rw [hc.1, hc.2.1, hc.2.2]⟩
    · rw [matchAt.eq_def] at h
      dsimp only at h
      rw [if_neg hc] at h
      exact absurd h (by simp)

/-- A text on which the pattern matches contains the `#FS` opener. -/
theorem findMatch_isSome_hasOpener (s : List Nat) (h : (findMatch s).isSome = true) :
    List.IsInfix [35, 70, 83] s := by
  induction s with
  | nil => simp [findMatch] at h
  | cons c cs ih =>
    rw [findMatch] at h
    cases hm : matchAt (c :: cs) with
    | some r =>
      obtain ⟨t, ht⟩ := matchAt_shape _ r hm
      exact ⟨[], t, by rw [ht]; rfl⟩
    | none =>
      rw [hm] at h
      cases hf : findMatch cs with
      | none => rw [hf] at h; simp at h
      | some y =>
        exact List.infix_cons (ih (by rw [hf]; rfl))

/-- A text without `$` passes the reference pass unchanged, from any plain
context. -/
theorem expandStep_no_dollar (m0 g1 : List Nat) (t : List Nat) (h : 36 ∉ t) :
    ∀ ctx, expandStep m0 g1 (ExpState.plain ctx) t = t := by
  induction t with
  | nil => intro ctx; rfl
  | cons c cs ih =>
    intro ctx
    have hc : ¬(c = 36 ∧ dollarCtxOk ctx = true) :=
      fun hand => h (hand.1 ▸ List.mem_cons_self c cs)
    rw [expandStep, if_neg hc, ih (fun hm => h (List.mem_cons_of_mem _ hm)) (ExpCtx.afterPlain c)]

/-- A text without `$` passes the `$$` pass unchanged. -/
theorem collapseDollars_no_dollar (t : List Nat) (h : 36 ∉ t) : collapseDollars t = t := by
  induction t with
  | nil => rfl
  | cons c cs ih =>
    cases cs with
    | nil => rfl
    | cons c2 rest =>
      have hc : ¬(c = 36 ∧ c2 = 36) :=
        fun hand => h (hand.1 ▸ List.mem_cons_self c (c2 :: rest))
      rw [collapseDollars, if_neg hc, ih (fun hm => h (List.mem_cons_of_mem _ hm))]

/-- A replacement text without `$` is expanded to itself. -/
theorem expand_no_dollar (m0 g1 t : List Nat) (h : 36 ∉ t) : expand m0 g1 t = t := by
  unfold expand
  rw [expandStep_no_dollar m0 g1 t h ExpCtx.atStart, collapseDollars_no_dollar t h]

/-- A key absent from a map is still absent after another key is removed. -/
theorem removeKey_absent_after (m : List (Value × Value)) (k k2 : String)
    (h : (removeKey m k).1 = none) : (removeKey (removeKey m k2).2 k).1 = none := by
  induction m with
  | nil => exact h
  | cons e rest ih =>
    obtain ⟨kv, v⟩ := e
    cases hkk : isKey kv k with
    | true =>
      rw [removeKey, if_pos hkk] at h
      exact absurd h (by simp)
    | false =>
      have hrest : (removeKey rest k).1 = none := by
        rw [removeKey, if_neg (by simp [hkk])] at h
        exact h
      by_cases hk2 : isKey kv k2 = true
      · rw [removeKey, if_pos hk2]
        exact hrest
      · rw [removeKey, if_neg hk2]
        show (removeKey ((kv, v) :: (removeKey rest k2).2) k).1 = none
        rw [removeKey, if_neg (by simp [hkk])]
        exact ih hrest

/-- `foldl` over the TCP `sync_write`: the wire grows by payload-terminator
pairs. -/
theorem tcp_foldl_general (bufs : List (List Nat)) (acc : List Nat) :
    bufs.foldl tcpSyncWrite acc = acc ++ (bufs.map (fun b => b ++ MSG_TERMINATOR)).flatten := by
  induction bufs generalizing acc with
  | nil => simp
  | cons b rest ih => simp [tcpSyncWrite, ih, List.append_assoc]

/-- `foldl` over the web-socket `sync_write`: one frame per payload. -/
theorem ws_foldl_general (bufs : List (List Nat)) (frames : List (List Nat)) :
    bufs.foldl wsSyncWrite frames = frames ++ bufs := by
  induction bufs generalizing frames with
  | nil => simp
  | cons b rest ih => simp [wsSyncWrite, ih]

/-! ### Claim theorems -/

/-- Claim C1 (code-bug evidence): a file-backed appender built in truncate
mode (`append(false)`) on an existing file containing `"01234"`, fed records
`"a"` and `"b"` and torn down, leaves the file containing `"ab234"` — not
the two encoded records alone.  `AsyncFileAppenderBuilder::build` never sets
the `truncate` option, so the tail of the prior content survives the
overwriting positioned writes, contradicting the spec scenario. -/
theorem file_truncate_mode_keeps_stale_bytes :
    ((workerRun [appendEvent (str "a"), appendEvent (str "b"), AsyncEvent.Terminate]).1.foldl
        fileSyncWrite (openOptionsOpen false (some (str "01234")))).content = str "ab234" ∧
    ((workerRun [appendEvent (str "a"), appendEvent (str "b"), AsyncEvent.Terminate]).1.foldl
        fileSyncWrite (openOptionsOpen false (some (str "01234")))).content ≠
      utf8Encode (str "a") ++ utf8Encode (str "b") := by
  decide

/-- Claim C2 (as amended): when a marked span
`#FS#<anything>[/\\#]<name>#FE#` is present, the entire span (markers
included) is replaced by the `$`-expansion of the captured leaf name — the
leaf itself whenever it contains no `$`, so `"xy#FS#/a/b/c.log#FE#zw"`
becomes `"xyc.logzw"` — and every text on which the pattern finds no match
passes through byte-identical; in particular any text not containing the
`#FS` opener is unchanged. -/
theorem rewrite_marker_spec :
    rewrite (str "xy#FS#/a/b/c.log#FE#zw") = str "xyc.logzw" ∧
    (∀ s pre m0 g rest : List Nat, findMatch s = some (pre, m0, g, rest) → 36 ∉ g →
      rewrite s = pre ++ g ++ rest) ∧
    (∀ s : List Nat, findMatch s = none → rewrite s = s) ∧
    (∀ s : List Nat, ¬ List.IsInfix [35, 70, 83] s → findMatch s = none) := by
  refine ⟨by decide, ?_, ?_, ?_⟩
  · intro s pre m0 g rest h hg
    unfold rewrite
    rw [h]
    dsimp only
    rw [expand_no_dollar m0 g g hg]
  · intro s h
    unfold rewrite
    rw [h]
  · intro s h
    cases hf : findMatch s with
    | none => rfl
    | some x => exact absurd (findMatch_isSome_hasOpener s (by rw [hf]; rfl)) h

/-- Counterexample for C2 as originally stated: a marked span whose leaf is
`$0` is not replaced by the leaf name — `re.replace` `$`-expands the `&str`
replacement, `$0` reproduces the whole matched span, and the text comes out
unchanged instead of `"x$0y"`. -/
theorem rewrite_marker_counterexample :
    rewrite (str "x#FS#/a/$0#FE#y") = str "x#FS#/a/$0#FE#y" ∧
    rewrite (str "x#FS#/a/$0#FE#y") ≠ str "x" ++ str "$0" ++ str "y" := by
  decide

/-- Witness for C2 at the concrete single-span input, via the `$`-free
conjunct. -/
theorem rewrite_marker_spec_witness :
    rewrite (str "xy#FS#/a/b/c.log#FE#zw") = str "xy" ++ str "c.log" ++ str "zw" :=
  rewrite_marker_spec.2.1 (str "xy#FS#/a/b/c.log#FE#zw") (str "xy")
    (str "#FS#/a/b/c.log#FE#") (str "c.log") (str "zw") (by decide) (by decide)

/-- Claim C3: the TCP `sync_write` puts exactly the payload immediately
followed by the 3-byte terminator `{254, 253, 255}` on the wire — for every
record, back-to-back with no interleaving — while the web-socket
`sync_write` sends the payload as one message with no terminator. -/
theorem stream_terminator_framing :
    (∀ wire buf : List Nat, tcpSyncWrite wire buf = wire ++ (buf ++ MSG_TERMINATOR)) ∧
    (∀ bufs : List (List Nat),
      bufs.foldl tcpSyncWrite [] = (bufs.map (fun b => b ++ MSG_TERMINATOR)).flatten) ∧
    (∀ frames bufs : List (List Nat), bufs.foldl wsSyncWrite frames = frames ++ bufs) := by
  refine ⟨?_, ?_, ?_⟩
  · intro wire buf
    simp [tcpSyncWrite]
  · intro bufs
    simpa using tcp_foldl_general bufs []
  · exact fun frames bufs => ws_foldl_general bufs frames

/-- Claim C5: on receiving `Terminate` the worker exits immediately without
draining: its writes come only from the events before the `Terminate`, and
the events enqueued after it are left exactly as queued — never read, and
nothing further is ever written (the terminated state is absorbing). -/
theorem worker_terminate_immediate (pre post : List AsyncEvent)
    (h : AsyncEvent.Terminate ∉ pre) :
    workerRun (pre ++ AsyncEvent.Terminate :: post) = (pre.filterMap eventOut, post) := by
  induction pre with
  | nil => rfl
  | cons e rest ih =>
    have hrest : AsyncEvent.Terminate ∉ rest := fun hc => h (List.mem_cons_of_mem _ hc)
    cases e with
    | Terminate => exact absurd (List.mem_cons_self _ _) h
    | Log m =>
      rw [List.cons_append, workerRun, ih hrest, List.filterMap_cons]
      cases hp : processEvent m with
      | none => simp [eventOut, hp]
      | some out => simp [eventOut, hp]

/-- Witness for C5: one record before `Terminate` is written, one after is
left unconsumed. -/
theorem worker_terminate_immediate_witness :
    workerRun ([appendEvent (str "a")] ++ AsyncEvent.Terminate :: [appendEvent (str "b")]) =
      ([appendEvent (str "a")].filterMap eventOut, [appendEvent (str "b")]) :=
  worker_terminate_immediate [appendEvent (str "a")] [appendEvent (str "b")] (by decide)

/-- Claim C6: a `Log` payload that is not valid UTF-8 is silently discarded:
the worker writes nothing for it, does not stop, and processes the rest of
the queue exactly as if the bad event had not been there. -/
theorem worker_drops_invalid_utf8 (bad : List Nat) (rest : List AsyncEvent)
    (h : utf8Decode bad = none) :
    workerRun (AsyncEvent.Log bad :: rest) = workerRun rest := by
  have hp : processEvent bad = none := by
    unfold processEvent
    rw [h]
  rw [workerRun, hp]

/-- Witness for C6: the invalid byte `0xFF` is dropped and the following
valid record is still processed. -/
theorem worker_drops_invalid_utf8_witness :
    workerRun [AsyncEvent.Log [255], appendEvent (str "ok"), AsyncEvent.Terminate] =
      workerRun [appendEvent (str "ok"), AsyncEvent.Terminate] :=
  worker_drops_invalid_utf8 [255] [appendEvent (str "ok"), AsyncEvent.Terminate] (by decide)

/-- Claim C7: `append` succeeds exactly when the queue can accept the event
(the worker's receiver is still alive), and when the worker has already
terminated it returns — rather than panics — the send error to the caller. -/
theorem append_ok_iff_queue_accepts (st : ChannelState) (record : List Nat) :
    (appendImpl st record = Except.ok () ↔ st.receiverAlive = true) ∧
    (appendImpl st record = Except.error SendError.disconnected ↔
      st.receiverAlive = false) := by
  obtain ⟨alive⟩ := st
  cases alive <;> simp [appendImpl, mpscSend]

/-- Witness for C7: with a live worker, a concrete `append` returns `Ok`. -/
theorem append_ok_iff_queue_accepts_witness :
    appendImpl { receiverAlive := true } (str "rec") = Except.ok () :=
  (append_ok_iff_queue_accepts { receiverAlive := true } (str "rec")).1.mpr rfl

/-- Claim C4: every record accepted by the queue before the `Terminate`
produces exactly one write attempt at the sink, in submission order with
nothing reordered and nothing left behind; a record can then be lost only to
the failure of its own sink write — for any per-write success behaviour of
the sink, the delivered records are the order-preserving filter of the
attempts. -/
theorem worker_fifo_delivery (records : List (List Nat))
    (h : ∀ r ∈ records, ∀ c ∈ r, ValidScalar c) :
    workerRun (records.map appendEvent ++ [AsyncEvent.Terminate]) =
      (records.map (fun r => utf8Encode (rewrite r)), []) ∧
    ∀ ok : List Nat → Bool,
      ((workerRun (records.map appendEvent ++ [AsyncEvent.Terminate])).1.filter ok).Sublist
        (records.map (fun r => utf8Encode (rewrite r))) := by
  have key : ∀ rs : List (List Nat), (∀ r ∈ rs, ∀ c ∈ r, ValidScalar c) →
      workerRun (rs.map appendEvent ++ [AsyncEvent.Terminate]) =
        (rs.map (fun r => utf8Encode (rewrite r)), []) := by
    intro rs
    induction rs with
    | nil => intro _; rfl
    | cons r rest ih =>
      intro hv
      have hp : processEvent (utf8Encode r) = some (utf8Encode (rewrite r)) := by
        unfold processEvent
        rw [utf8_roundtrip r (hv r (List.mem_cons_self r rest))]
      rw [List.map_cons, List.cons_append,
        show appendEvent r = AsyncEvent.Log (utf8Encode r) from rfl,
        workerRun, hp, ih (fun x hx => hv x (List.mem_cons_of_mem _ hx)), List.map_cons]
  refine ⟨key records h, fun ok => ?_⟩
  rw [key records h]
  exact List.filter_sublist _

/-- Witness for C4: two concrete records are attempted in order with an
empty remainder. -/
theorem worker_fifo_delivery_witness :
    workerRun ([str "a", str "b"].map appendEvent ++ [AsyncEvent.Terminate]) =
      ([str "a", str "b"].map (fun r => utf8Encode (rewrite r)), []) :=
  (worker_fifo_delivery [str "a", str "b"] (by decide)).1

/-- Claim C8: a configuration map missing its required destination field
(`path` for the file appender, `server_addr` for the server appender,
`server_url` for the web-socket appender) makes the creator fail with the
corresponding descriptive configuration error, with no sink opened and no
worker task started. -/
theorem config_missing_required_field
    (m1 m2 m3 : List (Value × Value))
    (h1 : (removeKey m1 "path").1 = none)
    (h2 : (removeKey m2 "server_addr").1 = none)
    (h3 : (removeKey m3 "server_url").1 = none)
    (α : Type) (parseAddr : String → Option α) (uid : Nat) :
    fileDeserialize (Value.map m1) = Except.error "`path` is required" ∧
    fileBuildTrace (Value.map m1) = [] ∧
    serverDeserialize parseAddr (Value.map m2) = Except.error "`server_addr` is required" ∧
    serverBuildTrace parseAddr (Value.map m2) = [] ∧
    webSockDeserialize uid (Value.map m3) = Except.error "`server_url` is required" ∧
    webSockBuildTrace uid (Value.map m3) = [] := by
  have hf : fileDeserialize (Value.map m1) = Except.error "`path` is required" := by
    rcases hr : removeKey m1 "path" with ⟨o, mrest⟩
    rw [hr] at h1
    dsimp only at h1
    subst h1
    unfold fileDeserialize
    dsimp only
    rw [hr]
  have hs : serverDeserialize parseAddr (Value.map m2) =
      Except.error "`server_addr` is required" := by
    rcases hr : removeKey m2 "server_addr" with ⟨o, mrest⟩
    rw [hr] at h2
    dsimp only at h2
    subst h2
    unfold serverDeserialize
    dsimp only
    rw [hr]
  have hw : webSockDeserialize uid (Value.map m3) =
      Except.error "`server_url` is required" := by
    rcases hr : removeKey m3 "server_url" with ⟨o, mrest⟩
    rw [hr] at h3
    dsimp only at h3
    subst h3
    unfold webSockDeserialize
    dsimp only
    rw [hr]
  refine ⟨hf, ?_, hs, ?_, hw, ?_⟩
  · unfold fileBuildTrace
    rw [hf]
  · unfold serverBuildTrace
    rw [hs]
  · unfold webSockBuildTrace
    rw [hw]

/-- Witness for C8: the empty configuration map is rejected by all three
creators with no side effects. -/
theorem config_missing_required_field_witness :
    fileDeserialize (Value.map []) = Except.error "`path` is required" ∧
    fileBuildTrace (Value.map []) = [] ∧
    serverDeserialize (fun _ => (none : Option Unit)) (Value.map []) =
      Except.error "`server_addr` is required" ∧
    serverBuildTrace (fun _ => (none : Option Unit)) (Value.map []) = [] ∧
    webSockDeserialize 0 (Value.map []) = Except.error "`server_url` is required" ∧
    webSockBuildTrace 0 (Value.map []) = [] :=
  config_missing_required_field [] [] [] rfl rfl rfl Unit (fun _ => none) 0

/-- Claim C10: an `append` field omitted from the file-appender configuration
defaults to `true` (append mode, not truncate), and a `no_delay` field
omitted from the server-appender configuration defaults to `true` (TCP
no-delay enabled). -/
theorem deserialize_defaults
    (m1 : List (Value × Value)) (cfg : FileAppenderConfig)
    (hok : fileDeserialize (Value.map m1) = Except.ok cfg)
    (habs : (removeKey m1 "append").1 = none)
    (α : Type) (parseAddr : String → Option α)
    (m2 : List (Value × Value)) (cfg2 : ServerAppenderConfig α)
    (hok2 : serverDeserialize parseAddr (Value.map m2) = Except.ok cfg2)
    (habs2 : (removeKey m2 "no_delay").1 = none) :
    cfg.append = true ∧ cfg2.no_delay = true := by
  constructor
  · rcases hr : removeKey m1 "path" with ⟨o, mrest⟩
    unfold fileDeserialize at hok
    dsimp only at hok
    rw [hr] at hok
    cases o with
    | none => exact Except.noConfusion hok
    | some v =>
      cases v with
      | string path =>
        have habs' : (removeKey mrest "append").1 = none := by
          have hgen := removeKey_absent_after m1 "append" "path" habs
          rw [hr] at hgen
          exact hgen
        rcases hra : removeKey mrest "append" with ⟨o2, mrest2⟩
        rw [hra] at habs'
        dsimp only at habs'
        subst habs'
        dsimp only at hok
        rw [hra] at hok
        dsimp only at hok
        rcases hpp : parse_pattern mrest2 false 0 with e | ⟨enc, mp⟩
        · rw [hpp] at hok
          exact Except.noConfusion hok
        · rw [hpp] at hok
          dsimp only at hok
          injection hok with hcfg
          rw [← hcfg]
      | bool b => exact Except.noConfusion hok
      | map mm => exact Except.noConfusion hok
      | other => exact Except.noConfusion hok
  · rcases hr : removeKey m2 "server_addr" with ⟨o, mrest⟩
    unfold serverDeserialize at hok2
    dsimp only at hok2
    rw [hr] at hok2
    cases o with
    | none => exact Except.noConfusion hok2
    | some v =>
      cases v with
      | string addr =>
        dsimp only at hok2
        rcases hpa : parseAddr addr with _ | a
        · rw [hpa] at hok2
          exact Except.noConfusion hok2
        · rw [hpa] at hok2
          dsimp only at hok2
          have habs2' : (removeKey mrest "no_delay").1 = none := by
            have hgen := removeKey_absent_after m2 "no_delay" "server_addr" habs2
            rw [hr] at hgen
            exact hgen
          rcases hrn : removeKey mrest "no_delay" with ⟨o2, mrest2⟩
          rw [hrn] at habs2'
          dsimp only at habs2'
          subst habs2'
          rw [hrn] at hok2
          dsimp only at hok2
          rcases hpp : parse_pattern mrest2 false 0 with e | ⟨enc, mp⟩
          · rw [hpp] at hok2
            exact Except.noConfusion hok2
          · rw [hpp] at hok2
            dsimp only at hok2
            injection hok2 with hcfg
            rw [← hcfg]
      | bool b => exact Except.noConfusion hok2
      | map mm => exact Except.noConfusion hok2
      | other => exact Except.noConfusion hok2

/-- Witness for C10: minimal configurations with the optional fields omitted
yield `append = true` and `no_delay = true`. -/
theorem deserialize_defaults_witness :
    (FileAppenderConfig.mk "log.txt" true EncoderConfig.defaultPattern).append = true ∧
    (ServerAppenderConfig.mk "127.0.0.1:80" true EncoderConfig.defaultPattern).no_delay = true :=
  deserialize_defaults [(Value.string "path", Value.string "log.txt")]
    (FileAppenderConfig.mk "log.txt" true EncoderConfig.defaultPattern) rfl rfl
    String some [(Value.string "server_addr", Value.string "127.0.0.1:80")]
    (ServerAppenderConfig.mk "127.0.0.1:80" true EncoderConfig.defaultPattern) rfl rfl

end AsyncLog
